import Mathlib

/-!
Shallow embedding of the transformation engine of `src/transformer.py`
(class `CompLinguisticsTransformer`).

Modelling conventions:
* Python's `random.random()` draws are modelled by an explicit stream
  `s : ℕ → ℚ` of values (valid streams satisfy `0 ≤ s n < 1`), together with
  a counter `k : ℕ` that is threaded through every function exactly where
  the Python code draws.  `random.choice(l)` and `random.randint(a, b)`
  each consume one draw `q` and select index `⌊q * n⌋` of their range.
* The NLTK functions `word_tokenize`, `sent_tokenize` and `pos_tag` are
  external library capabilities; they are passed in as parameters
  (`tok : String → List String`, `sentTok : String → List String`,
  `tag : List String → List String`, the last one producing the tag of each
  token, zipped with the tokens as `pos_tag` does).
* Machine floats of the Python code are modelled as exact rationals.
-/

namespace PromptGen

/-- Stream of random draws; `random.random()` yields values in `[0, 1)`. -/
abbrev RStream := ℕ → ℚ

/-- A stream is valid when every draw lies in `[0, 1)`, as `random.random()`
guarantees. -/
def validStream (s : RStream) : Prop := ∀ n, 0 ≤ s n ∧ s n < 1

/-- Model of `random.choice l` fed by one draw `q`: element `⌊q * |l|⌋`. -/
def pick (l : List String) (q : ℚ) : String :=
  l.getD (Int.toNat (Int.floor (q * l.length))) ""

/-- ASCII model of the regex class `\w` (word characters). -/
def isWordChar (c : Char) : Bool := c.isAlphanum || c == '_'

/-- Python `str.lower()` (ASCII case folding, which covers every string the
engine manipulates). -/
def lowerStr (t : String) : String := String.mk (t.data.map Char.toLower)

/-- Drop the first `n` characters of a string. -/
def dropStr (t : String) (n : ℕ) : String := String.mk (t.data.drop n)

/-- Character-list prefix test. -/
def isPre : List Char → List Char → Bool
  | [], _ => true
  | _ :: _, [] => false
  | a :: as, b :: bs => a == b && isPre as bs

/-- Python `str.rstrip()`: remove trailing whitespace. -/
def rstrip (t : String) : String :=
  String.mk (t.data.reverse.dropWhile Char.isWhitespace).reverse

/-- Split a character list on whitespace characters (empty pieces kept;
`pySplit` filters them out as Python `str.split()` does). -/
def splitWsAux : List Char → List Char → List String
  | [], acc => [String.mk acc]
  | c :: rest, acc =>
    if c.isWhitespace then String.mk acc :: splitWsAux rest []
    else splitWsAux rest (acc ++ [c])

/-- Python `str.split()`: split on whitespace, dropping empty pieces. -/
def pySplit (t : String) : List String :=
  (splitWsAux t.data []).filter fun w => w ≠ ""

/-- Python `' '.join(l)`. -/
def joinSp : List String → String
  | [] => ""
  | [a] => a
  | a :: b :: rest => a ++ " " ++ joinSp (b :: rest)

/-- Default terminology table of `CompLinguisticsTransformer.__init__`
(`self.term_mapping`), in insertion order. -/
def term_mapping : List (String × String) :=
  [("organize", "implement hierarchical organization of"),
   ("look", "perform corpus traversal across"),
   ("find", "identify"),
   ("check", "verify lexical and syntactic correctness of"),
   ("fix", "resolve anomalous patterns in"),
   ("use", "leverage"),
   ("start", "initiate"),
   ("continue", "proceed with subsequent modules in"),
   ("create", "generate structured artifacts for"),
   ("update", "refactor"),
   ("work", "execute operations on"),
   ("focus", "prioritize implementation of"),
   ("make", "construct"),
   ("give", "provide contextual metadata for"),
   ("code", "codebase"),
   ("files", "syntax tree components"),
   ("problems", "anomalous patterns"),
   ("errors", "syntactic inconsistencies"),
   ("bugs", "implementation defects"),
   ("project", "development corpus"),
   ("steps", "sequential components"),
   ("parts", "modular elements"),
   ("document", "knowledge transfer schema"),
   ("list", "enumerated entities"),
   ("info", "metadata"),
   ("folders", "directory hierarchy"),
   ("structure", "architectural schema"),
   ("first", "initial"),
   ("important", "critical"),
   ("main", "primary"),
   ("clear", "explicit"),
   ("good", "optimal"),
   ("bad", "suboptimal"),
   ("new", "subsequent"),
   ("look for", "identify instances of"),
   ("go through", "traverse the lexical structure of"),
   ("set up", "initialize the configuration parameters for"),
   ("find out", "determine through systematic analysis"),
   ("write down", "document in structured format"),
   ("keep track of", "maintain referential integrity for"),
   ("make sure", "ensure syntactic validity of"),
   ("pay attention to", "maintain semantic focus on"),
   ("next steps", "subsequent procedural elements")]

/-- Lower-cased single-space join of a token slice:
Python `' '.join(tokens[i:i+j]).lower()`. -/
def joinLower (ts : List String) : String := lowerStr (joinSp ts)

/-- The inner loop of `_replace_terms` that tries phrase lengths `n` down
to `1` at the front of `toks`: Python
`for j in range(min(4, len(tokens) - i), 0, -1)` with the dictionary test
`phrase in self.term_mapping`.  Returns the consumed length and the
replacement of the first (longest) phrase found. -/
def phraseSearch (tbl : List (String × String)) (toks : List String) :
    ℕ → Option (ℕ × String)
  | 0 => none
  | j + 1 =>
    match List.lookup (joinLower (toks.take (j + 1))) tbl with
    | some r => some (j + 1, r)
    | none => phraseSearch tbl toks j

/-- Longest-first phrase lookup at the front of `toks`
(`min(4, len(tokens) - i)` down to `1`). -/
def tryPhrase (tbl : List (String × String)) (toks : List String) :
    Option (ℕ × String) :=
  phraseSearch tbl toks (min 4 toks.length)

/-- The `while i < len(tokens)` loop of `_replace_terms`.  `fuel` is an upper
bound on the number of iterations; the wrapper always passes `toks.length`,
which suffices because every iteration consumes at least one token.  Returns
the emitted token list and the updated draw counter.  (The Python code also
computes `pos_tag(tokens)` here but never uses it.) -/
def replaceTermsAux (tbl : List (String × String)) (intensity : ℚ)
    (s : RStream) : ℕ → List String → ℕ → List String × ℕ
  | 0, toks, k => (toks, k)
  | _ + 1, [], k => ([], k)
  | fuel + 1, t :: ts, k =>
    match tryPhrase tbl (t :: ts) with
    | some (j, r) =>
      let rest := replaceTermsAux tbl intensity s fuel ((t :: ts).drop j) (k + 1)
      if s k < intensity then (r :: rest.1, rest.2)
      else ((t :: ts).take j ++ rest.1, rest.2)
    | none =>
      match List.lookup (lowerStr t) tbl with
      | some r =>
        let rest := replaceTermsAux tbl intensity s fuel ts (k + 1)
        if s k < intensity then (r :: rest.1, rest.2)
        else (t :: rest.1, rest.2)
      | none =>
        let rest := replaceTermsAux tbl intensity s fuel ts k
        (t :: rest.1, rest.2)

/-- `_replace_terms` on an already-tokenized sentence (`word_tokenize` is the
external NLTK tokenizer): scans left to right, longest phrase first, coin
flip `random.random() < intensity` per matched span, and finally
`' '.join(new_tokens)`. -/
def replace_terms (tbl : List (String × String)) (toks : List String)
    (intensity : ℚ) (s : RStream) (k : ℕ) : String × ℕ :=
  let r := replaceTermsAux tbl intensity s toks.length toks k
  (joinSp r.1, r.2)

/-- Case-insensitive literal prefix test, the core of the anchored
`(?i)^(alt1|alt2|...)` regexes of `self.structure_patterns`. -/
def matchAlt (alts : List String) (t : String) : Option String :=
  alts.find? fun p => isPre (lowerStr p).data (lowerStr t).data

/-- Split a character list at the last `'?'` of its first line (the greedy
`(.*)\?` of the question-form regexes, where `.` does not cross a newline):
returns the characters before that `'?'` and everything after it. -/
def lastQSplit : List Char → Option (List Char × List Char)
  | [] => none
  | '\n' :: _ => none
  | '?' :: rest =>
    match lastQSplit rest with
    | some (a, b) => some ('?' :: a, b)
    | none => some ([], rest)
  | c :: rest =>
    match lastQSplit rest with
    | some (a, b) => some (c :: a, b)
    | none => none

/-- Rewrite for `(?i)^(check|look at|find|fix|update)(.*)` →
`Systematically \x7b1\x7d\x7b2\x7d`: since groups 1-2 cover the whole match and the
unmatched tail is kept by `re.sub`, the result prepends to the sentence. -/
def pat1 (t : String) : Option String :=
  if (matchAlt ["check", "look at", "find", "fix", "update"] t).isSome then
    some ("Systematically " ++ t)
  else none

/-- Rewrite for `(?i)^(use|create|make|give)(.*)` →
`Implement methodology to \x7b1\x7d\x7b2\x7d`. -/
def pat2 (t : String) : Option String :=
  if (matchAlt ["use", "create", "make", "give"] t).isSome then
    some ("Implement methodology to " ++ t)
  else none

/-- Rewrite for `(?i)^(how (do|can|should) (i|we))(.*)\?` →
`What is the optimal approach to\x7b4\x7d?`: group 4 runs from the end of the
matched alternative to the last `'?'` of the first line; text after that
`'?'` is outside the match and is kept. -/
def pat3 (t : String) : Option String :=
  match matchAlt ["how do i", "how do we", "how can i", "how can we",
      "how should i", "how should we"] t with
  | some p =>
    match lastQSplit (dropStr t p.length).data with
    | some (a, b) =>
      some ("What is the optimal approach to" ++ String.mk a ++ "?" ++ String.mk b)
    | none => none
  | none => none

/-- Rewrite for `(?i)^(can you|could you|would you)(.*)\?` →
`Is it feasible to\x7b2\x7d?`. -/
def pat4 (t : String) : Option String :=
  match matchAlt ["can you", "could you", "would you"] t with
  | some p =>
    match lastQSplit (dropStr t p.length).data with
    | some (a, b) =>
      some ("Is it feasible to" ++ String.mk a ++ "?" ++ String.mk b)
    | none => none
  | none => none

/-- Rewrite for `(?i)^(i want|we need|please)(.*)` →
`It is necessary to\x7b2\x7d`: group 1 is dropped from the output. -/
def pat5 (t : String) : Option String :=
  match matchAlt ["i want", "we need", "please"] t with
  | some p => some ("It is necessary to" ++ dropStr t p.length)
  | none => none

/-- Rewrite for `(?i)^(i think|i believe)(.*)` → `Analysis indicates\x7b2\x7d`. -/
def pat6 (t : String) : Option String :=
  match matchAlt ["i think", "i believe"] t with
  | some p => some ("Analysis indicates" ++ dropStr t p.length)
  | none => none

/-- `self.structure_patterns`, in source order; each entry returns the
`re.sub` result when its `re.match` succeeds. -/
def structure_patterns : List (String → Option String) :=
  [pat1, pat2, pat3, pat4, pat5, pat6]

/-- The `for pattern, replacement in self.structure_patterns` loop of
`_restructure_sentence`: first matching pattern wins. -/
def firstPattern : List (String → Option String) → String → Option String
  | [], _ => none
  | p :: ps, t =>
    match p t with
    | some r => some r
    | none => firstPattern ps t

/-- `self.formal_starters`. -/
def formal_starters : List String :=
  ["Execute sequential development to",
   "Implement a systematic approach to",
   "Perform hierarchical analysis to",
   "Maintain strict adherence to",
   "Prioritize implementation of",
   "Generate structured documentation for",
   "Establish referential integrity through",
   "Systematically traverse",
   "Verify syntactic correctness of"]

/-- The personal-pronoun guard `(?i)^(i|we|you|they|he|she|it)\b`. -/
def startsWithPronoun (t : String) : Bool :=
  ["i", "we", "you", "they", "he", "she", "it"].any fun p =>
    isPre p.data (lowerStr t).data &&
      (match (dropStr t p.length).data with
       | [] => true
       | c :: _ => !isWordChar c)

/-- `_restructure_sentence`: gate `random.random() > intensity`, then the
pattern loop, then the short-sentence formal-starter branch
(`len(sentence.split()) < 8 and random.random() < intensity`, pronoun guard,
`random.choice(self.formal_starters)`). -/
def restructure_sentence (sent : String) (intensity : ℚ) (s : RStream)
    (k : ℕ) : String × ℕ :=
  if s k > intensity then (sent, k + 1)
  else
    match firstPattern structure_patterns sent with
    | some r => (r, k + 1)
    | none =>
      if (pySplit sent).length < 8 then
        if s (k + 1) < intensity then
          if !startsWithPronoun sent then
            (pick formal_starters (s (k + 2)) ++ " " ++ sent, k + 3)
          else (sent, k + 2)
        else (sent, k + 2)
      else (sent, k + 1)

/-- `self.technical_nouns`. -/
def technical_nouns : List String :=
  ["abstract syntax tree", "lexical analysis", "syntactic patterns",
   "referential integrity", "modular components", "dependency hierarchy",
   "implementation pipeline", "code corpus", "semantic structure",
   "lexical tokens", "syntactic schema", "architectural paradigm",
   "module granularity", "dependency graph", "namespace resolution"]

/-- `self.technical_modifiers`. -/
def technical_modifiers : List String :=
  ["hierarchical", "sequential", "systematic", "structured", "modular",
   "granular", "lexical", "syntactic", "semantic", "architectural",
   "paradigmatic", "comprehensive", "discrete", "optimal", "explicit"]

/-- The fixed verb → noun table of the nominalization branch. -/
def noun_forms : List (String × String) :=
  [("implement", "implementation"), ("develop", "development"),
   ("execute", "execution"), ("analyze", "analysis"),
   ("process", "processing"), ("transform", "transformation"),
   ("generate", "generation"), ("organize", "organization"),
   ("structure", "structuring"), ("refactor", "refactoring")]

/-- Python substring test `"the" in sentence.lower()` on a lower-cased
character list. -/
def containsTheAux : List Char → Bool
  | 't' :: 'h' :: 'e' :: _ => true
  | _ :: rest => containsTheAux rest
  | [] => false

/-- Python `"the" in sentence.lower()`: substring containment, not a
word-boundary test. -/
def containsThe (t : String) : Bool := containsTheAux (lowerStr t).data

/-- Whether the character list starts with `the` (case-insensitively)
followed by a word boundary. -/
def theAt : List Char → Bool
  | c1 :: c2 :: c3 :: rest =>
    c1.toLower == 't' && c2.toLower == 'h' && c3.toLower == 'e' &&
      (match rest with
       | [] => true
       | d :: _ => !isWordChar d)
  | _ => false

/-- Scan for the first word-boundary occurrence of `the` and splice in the
replacement, tracking whether the previous character was a word character
(the left `\b`).  Implements `re.sub(r"(?i)\bthe\b", repl, sentence,
count=1)`; leaves the input unchanged when no such occurrence exists. -/
def replTheAux (repl : String) (prevW : Bool) : List Char → List Char
  | [] => []
  | c :: rest =>
    if !prevW && theAt (c :: rest) then repl.toList ++ rest.drop 2
    else c :: replTheAux repl (isWordChar c) rest

/-- `re.sub(r"(?i)\bthe\b", f"the \x7btech_noun\x7d", sentence, count=1)`. -/
def replaceFirstWordThe (sent noun : String) : String :=
  String.mk (replTheAux ("the " ++ noun) false sent.toList)

/-- Whether the sentence contains `the` as a standalone word
(case-insensitively), i.e. whether the `re.sub` above can match at all. -/
def hasWordTheAux (prevW : Bool) : List Char → Bool
  | [] => false
  | c :: rest => (!prevW && theAt (c :: rest)) || hasWordTheAux (isWordChar c) rest

/-- Word-level containment of `the`. -/
def hasWordThe (t : String) : Bool := hasWordTheAux false t.toList

/-- The `words.insert(insert_pos, ...)` branch:
`insert_pos = random.randint(1, len(words) - 2)` fed by one draw `q`
(index `1 + ⌊q * (len - 2)⌋`), inserting
`"within the context of <noun>"` and rejoining with spaces. -/
def interiorInsert (sent noun : String) (q : ℚ) : String :=
  let ws := pySplit sent
  let pos := 1 + Int.toNat (Int.floor (q * ((ws.length : ℚ) - 2)))
  joinSp
    (ws.take pos ++ ["within the context of " ++ noun] ++ ws.drop pos)

/-- The technical-noun sub-transform of `_add_technical_embellishments`:
gate `random.random() < 0.3 * intensity`, `random.choice` of the noun, then
`if "the" in sentence.lower() and random.random() < 0.7` choose the
`re.sub` branch, else (also when that coin fails) the interior-insertion
branch guarded by `len(words) > 3`. -/
def nounInsertion (sent : String) (intensity : ℚ) (s : RStream) (k : ℕ) :
    String × ℕ :=
  if s k < 3 / 10 * intensity then
    let noun := pick technical_nouns (s (k + 1))
    if containsThe sent then
      if s (k + 2) < 7 / 10 then (replaceFirstWordThe sent noun, k + 3)
      else if 3 < (pySplit sent).length then
        (interiorInsert sent noun (s (k + 3)), k + 4)
      else (sent, k + 3)
    else if 3 < (pySplit sent).length then
      (interiorInsert sent noun (s (k + 2)), k + 3)
    else (sent, k + 2)
  else (sent, k + 1)

/-- Whether a part-of-speech tag marks a noun (`tag.startswith('NN')`). -/
def tagNN (t : String) : Bool := isPre "NN".data t.data

/-- Whether a part-of-speech tag marks a verb (`tag.startswith('VB')`). -/
def tagVB (t : String) : Bool := isPre "VB".data t.data

/-- The modifier loop: `for i, (word, tag) in enumerate(tagged)`, drawing a
coin only at noun tags with `i > 0`, breaking on the first success.
Returns the chosen index (if any) and the updated counter. -/
def modifierScan (s : RStream) : ℕ → ℕ → List (String × String) → Option ℕ × ℕ
  | _, k, [] => (none, k)
  | i, k, (_, tg) :: rest =>
    if tagNN tg && decide (0 < i) then
      if s k < 7 / 10 then (some i, k + 1)
      else modifierScan s (i + 1) (k + 1) rest
    else modifierScan s (i + 1) k rest

/-- The technical-modifier sub-transform: gate
`random.random() < 0.4 * intensity`, `random.choice` of the modifier,
tokenize and tag, prefix the first accepted noun token. -/
def modifierInsertion (tok : String → List String)
    (tag : List String → List String) (sent : String) (intensity : ℚ)
    (s : RStream) (k : ℕ) : String × ℕ :=
  if s k < 4 / 10 * intensity then
    let modif := pick technical_modifiers (s (k + 1))
    let ws := tok sent
    let tagged := ws.zip (tag ws)
    match modifierScan s 0 (k + 2) tagged with
    | (some i, kf) =>
      (joinSp (ws.set i (modif ++ " " ++ ws.getD i "")), kf)
    | (none, kf) => (sent, kf)
  else (sent, k + 1)

/-- The nominalization loop: scans tagged tokens; at a verb tag in interior
position whose lower-cased token is a `noun_forms` key it draws a coin
(`random.random() < 0.6`), breaking on the first success.  Returns the
chosen index and nominalized form (if any) and the updated counter. -/
def nomScan (s : RStream) (n : ℕ) :
    ℕ → ℕ → List (String × String) → Option (ℕ × String) × ℕ
  | _, k, [] => (none, k)
  | i, k, (w, tg) :: rest =>
    if tagVB tg && decide (0 < i) && decide (i < n - 1) then
      match List.lookup (lowerStr w) noun_forms with
      | some nf =>
        if s k < 6 / 10 then (some (i, nf), k + 1)
        else nomScan s n (i + 1) (k + 1) rest
      | none => nomScan s n (i + 1) k rest
    else nomScan s n (i + 1) k rest

/-- One iteration of the `for sentence in sentences` body of
`_add_technical_embellishments`: noun insertion, modifier insertion, then
(only in advanced mode, with short-circuit
`advanced and random.random() < 0.3 * intensity`) nominalization. -/
def embellishSentence (tok : String → List String)
    (tag : List String → List String) (advanced : Bool) (intensity : ℚ)
    (s : RStream) (sent : String) (k : ℕ) : String × ℕ :=
  let r1 := nounInsertion sent intensity s k
  let r2 := modifierInsertion tok tag r1.1 intensity s r1.2
  if advanced then
    if s r2.2 < 3 / 10 * intensity then
      let ws := tok r2.1
      let tagged := ws.zip (tag ws)
      match nomScan s ws.length 0 (r2.2 + 1) tagged with
      | (some (i, nf), kf) =>
        (joinSp (ws.set i ("the " ++ nf ++ " of")), kf)
      | (none, kf) => (r2.1, kf)
    else (r2.1, r2.2 + 1)
  else r2

/-- The `for sentence in sentences` loop, collecting embellished sentences. -/
def embellishList (tok : String → List String)
    (tag : List String → List String) (advanced : Bool) (intensity : ℚ)
    (s : RStream) : List String → ℕ → List String × ℕ
  | [], k => ([], k)
  | sent :: rest, k =>
    let r := embellishSentence tok tag advanced intensity s sent k
    let rs := embellishList tok tag advanced intensity s rest r.2
    (r.1 :: rs.1, rs.2)

/-- `_add_technical_embellishments`: stage gate
`random.random() > intensity`, then `sent_tokenize`, the per-sentence loop,
and `' '.join(embellished)`. -/
def add_technical_embellishments (sentTok tok : String → List String)
    (tag : List String → List String) (text : String) (intensity : ℚ)
    (advanced : Bool) (s : RStream) (k : ℕ) : String × ℕ :=
  if s k > intensity then (text, k + 1)
  else
    let r := embellishList tok tag advanced intensity s (sentTok text) (k + 1)
    (joinSp r.1, r.2)

/-- `formal_endings` of `_formalize_ending` (note the leading spaces of the
source literals). -/
def formal_endings : List String :=
  [" This approach ensures optimal implementation of the architectural schema.",
   " Maintaining referential integrity throughout this process is essential.",
   " This methodology aligns with established computational paradigms.",
   " Strict adherence to this framework will facilitate efficient development."]

/-- Python `t.endswith(('.', '!', '?'))`: the last character is terminal
punctuation. -/
def endsTerminal (t : String) : Bool :=
  match t.data.getLast? with
  | some c => c == '.' || c == '!' || c == '?'
  | none => false

/-- `_formalize_ending`: short-circuit gate
`len(text) < 100 or random.random() > intensity` (no draw on a short text),
`sent_tokenize`, the `< 2` sentence guard, the local terminal-punctuation
fix of the last sentence, and the second flip
`random.random() < intensity` that alone writes the fixed last sentence
plus a `random.choice(formal_endings)` back before `' '.join(sentences)`. -/
def formalize_ending (sentTok : String → List String) (text : String)
    (intensity : ℚ) (s : RStream) (k : ℕ) : String × ℕ :=
  if text.length < 100 then (text, k)
  else if s k > intensity then (text, k + 1)
  else
    let sentences := sentTok text
    if sentences.length < 2 then (text, k + 1)
    else
      let last0 := sentences.getLastD ""
      let last1 := if endsTerminal (rstrip last0) then last0 else last0 ++ "."
      if s (k + 1) < intensity then
        (joinSp
          (sentences.dropLast ++ [last1 ++ pick formal_endings (s (k + 2))]),
         k + 3)
      else (joinSp sentences, k + 2)

/-- Count of `re.findall(r'\b\w+\b', text)`: maximal runs of word
characters, tracked by a previous-character-was-word flag. -/
def countWordsAux : Bool → List Char → ℕ
  | _, [] => 0
  | inw, c :: rest =>
    if isWordChar c then
      (if inw then 0 else 1) + countWordsAux true rest
    else countWordsAux false rest

/-- Number of regex word matches in a text. -/
def countWords (t : String) : ℕ := countWordsAux false t.toList

/-- The word/character delta statistics returned by `transform`. -/
structure TransformStats where
  words : ℤ
  chars : ℤ
  deriving DecidableEq

/-- The `for sentence in sentences` pipeline of `transform`: term
replacement, restructuring, embellishment, in order, per sentence. -/
def transformSentences (tbl : List (String × String))
    (sentTok tok : String → List String) (tag : List String → List String)
    (intensity : ℚ) (advanced : Bool) (s : RStream) :
    List String → ℕ → List String × ℕ
  | [], k => ([], k)
  | sent :: rest, k =>
    let a := replace_terms tbl (tok sent) intensity s k
    let b := restructure_sentence a.1 intensity s a.2
    let c := add_technical_embellishments sentTok tok tag b.1 intensity
      advanced s b.2
    let rs := transformSentences tbl sentTok tok tag intensity advanced s
      rest c.2
    (c.1 :: rs.1, rs.2)

/-- `transform`: validation (`not text` for a string is the emptiness test;
the `isinstance` check is vacuous for string inputs), intensity clamping,
original counts, per-sentence pipeline, `' '.join`, formal ending, and
delta statistics. -/
def transform (tbl : List (String × String))
    (sentTok tok : String → List String) (tag : List String → List String)
    (text : String) (intensity : ℚ) (advanced : Bool) (s : RStream)
    (k : ℕ) : (String × TransformStats) × ℕ :=
  if text = "" then (("Invalid input text.", ⟨0, 0⟩), k)
  else
    let inten := max 0 (min 1 intensity)
    let ow : ℤ := countWords text
    let oc : ℤ := text.length
    let ts := transformSentences tbl sentTok tok tag inten advanced s
      (sentTok text) k
    let joined := joinSp ts.1
    let fin := formalize_ending sentTok joined inten s ts.2
    ((fin.1, ⟨(countWords fin.1 : ℤ) - ow, (fin.1.length : ℤ) - oc⟩), fin.2)

/-- Atomic Python values (dictionary keys must be hashable in Python, and
atomic keys and values are all the construction-time behaviour depends
on). -/
inductive PyAtom where
  | astr : String → PyAtom
  | aint : Int → PyAtom
  | abool : Bool → PyAtom
  | anone : PyAtom
  deriving DecidableEq

/-- Model of the Python values an engine caller may pass as
`custom_terminology`: an atom, a list, or a dictionary of atoms. -/
inductive PyVal where
  | atom : PyAtom → PyVal
  | vlist : List PyAtom → PyVal
  | vdict : List (PyAtom × PyAtom) → PyVal
  deriving DecidableEq

/-- Python truthiness of such a value. -/
def PyVal.truthy : PyVal → Bool
  | .atom (.astr t) => t ≠ ""
  | .atom (.aint n) => n ≠ 0
  | .atom (.abool b) => b
  | .atom .anone => false
  | .vlist l => !l.isEmpty
  | .vdict l => !l.isEmpty

/-- `isinstance(v, dict)`. -/
def PyVal.isDict : PyVal → Bool
  | .vdict _ => true
  | _ => false

/-- Whether a value is a mapping whose keys and values are all strings. -/
def PyVal.isStrStrMap : PyVal → Bool
  | .vdict l =>
    l.all fun p =>
      (match p.1 with | .astr _ => true | _ => false) &&
      (match p.2 with | .astr _ => true | _ => false)
  | _ => false

/-- Overwrite the entry with the given key (keys are unique in a Python
dict), keeping its position. -/
def overwriteKey (key v : PyAtom) : List (PyAtom × PyAtom) → List (PyAtom × PyAtom)
  | [] => []
  | p :: rest =>
    if p.1 == key then (key, v) :: overwriteKey key v rest
    else p :: overwriteKey key v rest

/-- One assignment `base[key] = v` of `dict.update`: overwrite in place if
the key exists, else append. -/
def assocSet (base : List (PyAtom × PyAtom)) (key v : PyAtom) :
    List (PyAtom × PyAtom) :=
  if (List.lookup key base).isSome then overwriteKey key v base
  else base ++ [(key, v)]

/-- `base.update(upd)`: assignments in the iteration order of `upd`. -/
def dictUpdate (base : List (PyAtom × PyAtom)) :
    List (PyAtom × PyAtom) → List (PyAtom × PyAtom)
  | [] => base
  | (key, v) :: rest => dictUpdate (assocSet base key v) rest

/-- The default table as Python string-keyed dictionary entries. -/
def defaultTableP : List (PyAtom × PyAtom) :=
  term_mapping.map fun p => (PyAtom.astr p.1, PyAtom.astr p.2)

/-- The terminology-table initialization of `__init__`:
`if custom_terminology and isinstance(custom_terminology, dict):
self.term_mapping.update(custom_terminology)`. -/
def initTermMapping (custom : PyVal) : List (PyAtom × PyAtom) :=
  if custom.truthy && custom.isDict then
    match custom with
    | .vdict l => dictUpdate defaultTableP l
    | _ => defaultTableP
  else defaultTableP

/-- Variant of `replaceTermsAux` with the dead table-hit branch of the
single-token fallback deleted: when no phrase matched, the token is emitted
unchanged with no lookup and no draw. -/
def replaceTermsAuxNoFB (tbl : List (String × String)) (intensity : ℚ)
    (s : RStream) : ℕ → List String → ℕ → List String × ℕ
  | 0, toks, k => (toks, k)
  | _ + 1, [], k => ([], k)
  | fuel + 1, t :: ts, k =>
    match tryPhrase tbl (t :: ts) with
    | some (j, r) =>
      let rest := replaceTermsAuxNoFB tbl intensity s fuel ((t :: ts).drop j)
        (k + 1)
      if s k < intensity then (r :: rest.1, rest.2)
      else ((t :: ts).take j ++ rest.1, rest.2)
    | none =>
      let rest := replaceTermsAuxNoFB tbl intensity s fuel ts k
      (t :: rest.1, rest.2)

/-- Variant of the per-sentence embellishment body with the nominalization
block deleted (noun insertion and modifier insertion only). -/
def embellishSentenceNoNom (tok : String → List String)
    (tag : List String → List String) (intensity : ℚ) (s : RStream)
    (sent : String) (k : ℕ) : String × ℕ :=
  let r1 := nounInsertion sent intensity s k
  modifierInsertion tok tag r1.1 intensity s r1.2

/-- Sentence loop of the nominalization-free variant. -/
def embellishListNoNom (tok : String → List String)
    (tag : List String → List String) (intensity : ℚ) (s : RStream) :
    List String → ℕ → List String × ℕ
  | [], k => ([], k)
  | sent :: rest, k =>
    let r := embellishSentenceNoNom tok tag intensity s sent k
    let rs := embellishListNoNom tok tag intensity s rest r.2
    (r.1 :: rs.1, rs.2)

/-- The embellishment stage with the nominalization block deleted. -/
def add_technical_embellishments_noNom (sentTok tok : String → List String)
    (tag : List String → List String) (text : String) (intensity : ℚ)
    (s : RStream) (k : ℕ) : String × ℕ :=
  if s k > intensity then (text, k + 1)
  else
    let r := embellishListNoNom tok tag intensity s (sentTok text) (k + 1)
    (joinSp r.1, r.2)

/-- Deterministic always-replace scan: what `_replace_terms` emits when
every coin flip succeeds, together with the number of draws it consumes. -/
def replaceAlwaysAux (tbl : List (String × String)) :
    ℕ → List String → List String × ℕ
  | 0, toks => (toks, 0)
  | _ + 1, [] => ([], 0)
  | fuel + 1, t :: ts =>
    match tryPhrase tbl (t :: ts) with
    | some (j, r) =>
      let rest := replaceAlwaysAux tbl fuel ((t :: ts).drop j)
      (r :: rest.1, rest.2 + 1)
    | none =>
      let rest := replaceAlwaysAux tbl fuel ts
      (t :: rest.1, rest.2)

theorem joinSp_single (t : String) : joinSp [t] = t := rfl

theorem joinLower_single (t : String) : joinLower [t] = lowerStr t := rfl

/-- A successful `phraseSearch` returns the longest phrase in the table:
the returned slice is in the table and every strictly longer tried slice is
not. -/
theorem phraseSearch_some (tbl : List (String × String)) (toks : List String) :
    ∀ n j r, phraseSearch tbl toks n = some (j, r) →
      1 ≤ j ∧ j ≤ n ∧ List.lookup (joinLower (toks.take j)) tbl = some r ∧
      ∀ jj, j < jj → jj ≤ n →
        List.lookup (joinLower (toks.take jj)) tbl = none := by
  intro n
  induction n with
  | zero => intro j r h; simp [phraseSearch] at h
  | succ m ih =>
    intro j r h
    cases hl : List.lookup (joinLower (toks.take (m + 1))) tbl with
    | some r2 =>
      rw [phraseSearch, hl] at h
      obtain ⟨h1, h2⟩ : m + 1 = j ∧ r2 = r := by simpa using h
      subst h1; subst h2
      exact ⟨by omega, le_refl _, hl, fun jj hj1 hj2 => by omega⟩
    | none =>
      rw [phraseSearch, hl] at h
      obtain ⟨h1, h2, h3, h4⟩ := ih j r h
      refine ⟨h1, by omega, h3, ?_⟩
      intro jj hj1 hj2
      rcases Nat.lt_or_ge jj (m + 1) with hlt | hge
      · exact h4 jj hj1 (by omega)
      · have hjj : jj = m + 1 := by omega
        subst hjj; exact hl

/-- A failed `phraseSearch` means no tried slice is in the table. -/
theorem phraseSearch_none (tbl : List (String × String)) (toks : List String) :
    ∀ n, phraseSearch tbl toks n = none →
      ∀ m, 1 ≤ m → m ≤ n →
        List.lookup (joinLower (toks.take m)) tbl = none := by
  intro n
  induction n with
  | zero => intro _ m h1 h2; omega
  | succ p ih =>
    intro h m h1 h2
    cases hl : List.lookup (joinLower (toks.take (p + 1))) tbl with
    | some r => rw [phraseSearch, hl] at h; exact absurd h (by simp)
    | none =>
      rcases Nat.lt_or_ge m (p + 1) with hlt | hge
      · have h' : phraseSearch tbl toks p = none := by
          rw [phraseSearch, hl] at h; exact h
        exact ih h' m h1 (by omega)
      · have hm : m = p + 1 := by omega
        subst hm; exact hl

/-- When no phrase matches at a position, the lower-cased head token is not
a table key either (the length-1 phrase already tried it). -/
theorem lookup_single_of_tryPhrase_none (tbl : List (String × String))
    (t : String) (ts : List String) (h : tryPhrase tbl (t :: ts) = none) :
    List.lookup (lowerStr t) tbl = none := by
  have hmin : 1 ≤ min 4 (t :: ts).length := by
    simp only [List.length_cons]; omega
  have := phraseSearch_none tbl (t :: ts) (min 4 (t :: ts).length) h 1
    le_rfl hmin
  simpa [joinLower_single] using this

/-- C9: the single-token fallback's table-hit branch of `_replace_terms` is
dead code: the phrase loop already tried the length-1 phrase, which equals
the lower-cased single token, so the scan with that branch deleted has
identical output and identical draw-counter behaviour for every table,
input, intensity and stream. -/
theorem c9_fallback_dead (tbl : List (String × String)) (intensity : ℚ)
    (s : RStream) :
    ∀ fuel toks k, replaceTermsAux tbl intensity s fuel toks k =
      replaceTermsAuxNoFB tbl intensity s fuel toks k := by
  intro fuel
  induction fuel with
  | zero => intro toks k; rfl
  | succ f ih =>
    intro toks k
    cases toks with
    | nil => rfl
    | cons t ts =>
      cases hp : tryPhrase tbl (t :: ts) with
      | some jr =>
        rcases jr with ⟨j, r⟩
        simp only [replaceTermsAux, replaceTermsAuxNoFB, hp, ih]
      | none =>
        have hl := lookup_single_of_tryPhrase_none tbl t ts hp
        simp only [replaceTermsAux, replaceTermsAuxNoFB, hp, hl, ih]

/-- At intensity 1 every coin flip `s k < 1` of the scan succeeds, so the
scan agrees with the deterministic always-replace scan, consuming one draw
per matched span. -/
theorem replaceTermsAux_one (tbl : List (String × String)) (s : RStream)
    (hs : validStream s) :
    ∀ fuel toks k, replaceTermsAux tbl 1 s fuel toks k =
      ((replaceAlwaysAux tbl fuel toks).1,
       k + (replaceAlwaysAux tbl fuel toks).2) := by
  intro fuel
  induction fuel with
  | zero => intro toks k; rfl
  | succ f ih =>
    intro toks k
    cases toks with
    | nil => rfl
    | cons t ts =>
      cases hp : tryPhrase tbl (t :: ts) with
      | some jr =>
        rcases jr with ⟨j, r⟩
        have hk : s k < 1 := (hs k).2
        simp only [replaceTermsAux, replaceAlwaysAux, hp, ih, if_pos hk,
          Prod.mk.injEq]
        exact ⟨trivial, by omega⟩
      | none =>
        have hl := lookup_single_of_tryPhrase_none tbl t ts hp
        simp only [replaceTermsAux, replaceAlwaysAux, hp, hl, ih]

/-- C1: term substitution is longest-phrase-first.  The default table
contains both `look for` and `look`; a successful `tryPhrase` result is a
table phrase such that every strictly longer tried phrase misses; and on
the tokens of `look for it` at intensity 1, for every valid stream, the
output is the replacement of `look for` followed by `it`. -/
theorem c1_longest_phrase_first :
    (List.lookup "look for" term_mapping = some "identify instances of" ∧
     List.lookup "look" term_mapping = some "perform corpus traversal across") ∧
    (∀ (tbl : List (String × String)) (toks : List String) (j : ℕ) (r : String),
        tryPhrase tbl toks = some (j, r) →
        List.lookup (joinLower (toks.take j)) tbl = some r ∧
        ∀ jj, j < jj → jj ≤ min 4 toks.length →
          List.lookup (joinLower (toks.take jj)) tbl = none) ∧
    (∀ (s : RStream) (k : ℕ), validStream s →
        replace_terms term_mapping ["look", "for", "it"] 1 s k =
          ("identify instances of it", k + 1)) := by
  refine ⟨by decide, ?_, ?_⟩
  · intro tbl toks j r h
    obtain ⟨_, _, h3, h4⟩ := phraseSearch_some tbl toks _ j r h
    exact ⟨h3, h4⟩
  · intro s k hs
    have hone := replaceTermsAux_one term_mapping s hs
      (["look", "for", "it"] : List String).length ["look", "for", "it"] k
    have hA : replaceAlwaysAux term_mapping
        (["look", "for", "it"] : List String).length ["look", "for", "it"] =
        (["identify instances of", "it"], 1) := by decide
    simp only [replace_terms, hone, hA]
    rfl

/-- Witness for C1 at the concrete input `look for it` with the all-zero
stream. -/
theorem c1_witness :
    tryPhrase term_mapping ["look", "for", "it"] = some (2, "identify instances of") ∧
    List.lookup (joinLower ((["look", "for", "it"] : List String).take 2))
      term_mapping = some "identify instances of" ∧
    replace_terms term_mapping ["look", "for", "it"] 1 (fun _ => 0) 0 =
      ("identify instances of it", 1) := by
  have hv : validStream fun _ => (0 : ℚ) := fun _ => ⟨le_refl 0, by norm_num⟩
  refine ⟨by decide, ?_, ?_⟩
  · exact (c1_longest_phrase_first.2.1 term_mapping ["look", "for", "it"] 2
      "identify instances of" (by decide)).1
  · simpa using c1_longest_phrase_first.2.2 (fun _ => 0) 0 hv

/-- C2: at intensity 1, for every valid stream, every span matching the
terminology table is replaced (the scan equals the deterministic
always-replace scan), and restructuring is always attempted, so whenever a
structure pattern matches the sentence the first such pattern fires. -/
theorem c2_intensity_one :
    (∀ (tbl : List (String × String)) (toks : List String) (s : RStream)
        (k : ℕ), validStream s →
        replace_terms tbl toks 1 s k =
          (joinSp (replaceAlwaysAux tbl toks.length toks).1,
           k + (replaceAlwaysAux tbl toks.length toks).2)) ∧
    (∀ (sent : String) (s : RStream) (k : ℕ) (r : String), validStream s →
        firstPattern structure_patterns sent = some r →
        restructure_sentence sent 1 s k = (r, k + 1)) := by
  constructor
  · intro tbl toks s k hs
    simp only [replace_terms, replaceTermsAux_one tbl s hs]
  · intro sent s k r hs hm
    have hk : ¬ s k > 1 := by
      have := (hs k).2; push_neg; linarith
    simp only [restructure_sentence, if_neg hk, hm]

/-- Witness for C2 at concrete inputs with the all-zero stream. -/
theorem c2_witness :
    replace_terms term_mapping ["use", "it"] 1 (fun _ => 0) 0 =
      ("leverage it", 1) ∧
    restructure_sentence "check this now" 1 (fun _ => 0) 0 =
      ("Systematically check this now", 1) := by
  have hv : validStream fun _ => (0 : ℚ) := fun _ => ⟨le_refl 0, by norm_num⟩
  constructor
  · have := c2_intensity_one.1 term_mapping ["use", "it"] (fun _ => 0) 0 hv
    rw [this]; decide
  · exact c2_intensity_one.2 "check this now" (fun _ => 0) 0
      "Systematically check this now" hv (by decide)

/-- With `advanced = false` the per-sentence embellishment body equals the
variant with the nominalization block deleted. -/
theorem embellishSentence_false (tok : String → List String)
    (tag : List String → List String) (intensity : ℚ) (s : RStream)
    (sent : String) (k : ℕ) :
    embellishSentence tok tag false intensity s sent k =
      embellishSentenceNoNom tok tag intensity s sent k := rfl

/-- With `advanced = false` the sentence loop equals the
nominalization-free loop. -/
theorem embellishList_false (tok : String → List String)
    (tag : List String → List String) (intensity : ℚ) (s : RStream) :
    ∀ sents k, embellishList tok tag false intensity s sents k =
      embellishListNoNom tok tag intensity s sents k := by
  intro sents
  induction sents with
  | nil => intro k; rfl
  | cons a rest ih =>
    intro k
    simp only [embellishList, embellishListNoNom, embellishSentence_false, ih]

/-- C4: with `advanced = false`, `_add_technical_embellishments` never
performs nominalization: for every input, intensity, stream and injected
tokenizers/tagger, it coincides (output and draw counter) with the variant
whose verb-to-noun branch is deleted, the branch being unreachable behind
the short-circuit `advanced and ...` gate. -/
theorem c4_no_nominalization (sentTok tok : String → List String)
    (tag : List String → List String) (text : String) (intensity : ℚ)
    (s : RStream) (k : ℕ) :
    add_technical_embellishments sentTok tok tag text intensity false s k =
      add_technical_embellishments_noNom sentTok tok tag text intensity s k := by
  simp only [add_technical_embellishments, add_technical_embellishments_noNom,
    embellishList_false]

/-- At intensity 0 every replacement coin flip `s k < 0` fails, so the term
scan emits the original tokens. -/
theorem replaceTermsAux_zero (tbl : List (String × String)) (s : RStream)
    (hs : validStream s) :
    ∀ fuel toks k, (replaceTermsAux tbl 0 s fuel toks k).1 = toks := by
  intro fuel
  induction fuel with
  | zero => intro toks k; rfl
  | succ f ih =>
    intro toks k
    cases toks with
    | nil => rfl
    | cons t ts =>
      have hneg : ¬ s k < 0 := not_lt.mpr (hs k).1
      cases hp : tryPhrase tbl (t :: ts) with
      | some jr =>
        rcases jr with ⟨j, r⟩
        simp only [replaceTermsAux, hp, if_neg hneg, ih, List.take_append_drop]
      | none =>
        cases hl : List.lookup (lowerStr t) tbl with
        | some r =>
          simp only [replaceTermsAux, hp, hl, if_neg hneg, ih]
        | none =>
          simp only [replaceTermsAux, hp, hl, ih]

/-- At intensity 0 every embellishment sub-gate `s k < 0` fails, so each
sentence passes through the loop unchanged. -/
theorem embellishList_zero (tok : String → List String)
    (tag : List String → List String) (advanced : Bool) (s : RStream)
    (hs : validStream s) :
    ∀ sents k, (embellishList tok tag advanced 0 s sents k).1 = sents := by
  intro sents
  induction sents with
  | nil => intro k; rfl
  | cons a rest ih =>
    intro k
    have hstep : ∀ m, (embellishSentence tok tag advanced 0 s a m).1 = a := by
      intro m
      have h30 : ¬ s m < 3 / 10 * 0 := by
        rw [mul_zero]; exact not_lt.mpr (hs m).1
      have h40 : ¬ s (m + 1) < 4 / 10 * 0 := by
        rw [mul_zero]; exact not_lt.mpr (hs (m + 1)).1
      simp only [embellishSentence, embellishSentenceNoNom, nounInsertion,
        modifierInsertion, if_neg h30, if_neg h40]
      cases advanced with
      | false => rfl
      | true =>
        have h3a : ¬ s (m + 1 + 1) < 0 := not_lt.mpr (hs (m + 1 + 1)).1
        simp [h3a]
    simp only [embellishList, hstep, ih]

/-- C3 fails as stated: the restructuring gate compares with strict `>`
against intensity 0, so a draw of exactly 0 enters the stage and the first
structure pattern fires on a matching sentence: on `check this now` with
the all-zero stream the stage returns a changed sentence. -/
theorem c3_counterexample :
    (restructure_sentence "check this now" 0 (fun _ => 0) 0).1 =
      "Systematically check this now" ∧
    "Systematically check this now" ≠ "check this now" := by
  constructor
  · decide
  · decide

/-- C3, amended: at intensity 0, for every valid stream, no term
substitution fires (the scan returns the whitespace-join of the original
tokens), no embellishment sub-transform fires and no formal-ending
appendage fires (those stages return their input up to re-joining its
sentences with spaces), and no formal starter fires; the restructuring
stage returns its input unchanged whenever its gate draw is positive or no
structure pattern matches — but a gate draw of exactly 0 passes the strict
`>` comparison, in which case a matching structure pattern does fire. -/
theorem c3_intensity_zero :
    (∀ (tbl : List (String × String)) (toks : List String) (s : RStream)
        (k : ℕ), validStream s →
        (replace_terms tbl toks 0 s k).1 = joinSp toks) ∧
    (∀ (sent : String) (s : RStream) (k : ℕ), validStream s →
        0 < s k ∨ firstPattern structure_patterns sent = none →
        (restructure_sentence sent 0 s k).1 = sent) ∧
    (∀ (sentTok tok : String → List String) (tag : List String → List String)
        (text : String) (advanced : Bool) (s : RStream) (k : ℕ),
        validStream s →
        (add_technical_embellishments sentTok tok tag text 0 advanced s k).1 =
            text ∨
        (add_technical_embellishments sentTok tok tag text 0 advanced s k).1 =
            joinSp (sentTok text)) ∧
    (∀ (sentTok : String → List String) (text : String) (s : RStream)
        (k : ℕ), validStream s →
        (formalize_ending sentTok text 0 s k).1 = text ∨
        (formalize_ending sentTok text 0 s k).1 = joinSp (sentTok text)) := by
  refine ⟨?_, ?_, ?_, ?_⟩
  · intro tbl toks s k hs
    simp only [replace_terms, replaceTermsAux_zero tbl s hs]
  · intro sent s k hs h
    rcases h with hpos | hnone
    · simp only [restructure_sentence, if_pos hpos]
    · have hlt : ¬ s (k + 1) < 0 := not_lt.mpr (hs (k + 1)).1
      by_cases hg : s k > 0
      · simp only [restructure_sentence, if_pos hg]
      · simp only [restructure_sentence, if_neg hg, hnone, if_neg hlt]
        split <;> rfl
  · intro sentTok tok tag text advanced s k hs
    by_cases hg : s k > 0
    · left; simp only [add_technical_embellishments, if_pos hg]
    · right
      simp only [add_technical_embellishments, if_neg hg,
        embellishList_zero tok tag advanced s hs]
  · intro sentTok text s k hs
    by_cases hlen : text.length < 100
    · left; simp only [formalize_ending, if_pos hlen]
    · by_cases hg : s k > 0
      · left; simp only [formalize_ending, if_neg hlen, if_pos hg]
      · by_cases hn : (sentTok text).length < 2
        · left; simp only [formalize_ending, if_neg hlen, if_neg hg, if_pos hn]
        · right
          have hlt : ¬ s (k + 1) < 0 := not_lt.mpr (hs (k + 1)).1
          simp only [formalize_ending, if_neg hlen, if_neg hg, if_neg hn,
            if_neg hlt]

/-- Witness for the amended C3 at concrete inputs with the constant
one-half stream. -/
theorem c3_witness :
    (replace_terms term_mapping ["use", "it"] 0 (fun _ => 1 / 2) 0).1 =
      "use it" ∧
    (restructure_sentence "check this now" 0 (fun _ => 1 / 2) 0).1 =
      "check this now" ∧
    ((add_technical_embellishments (fun t => [t]) (fun t => [t])
        (fun l => l.map fun _ => "NN") "fix the code" 0 false
        (fun _ => 1 / 2) 0).1 = "fix the code" ∨
     (add_technical_embellishments (fun t => [t]) (fun t => [t])
        (fun l => l.map fun _ => "NN") "fix the code" 0 false
        (fun _ => 1 / 2) 0).1 = joinSp ["fix the code"]) ∧
    ((formalize_ending (fun t => [t]) "short text." 0 (fun _ => 1 / 2) 0).1 =
        "short text." ∨
     (formalize_ending (fun t => [t]) "short text." 0 (fun _ => 1 / 2) 0).1 =
        joinSp ["short text."]) := by
  have hv : validStream fun _ => (1 : ℚ) / 2 := fun _ => ⟨by norm_num, by norm_num⟩
  refine ⟨?_, ?_, ?_, ?_⟩
  · simpa using c3_intensity_zero.1 term_mapping ["use", "it"] (fun _ => 1 / 2) 0 hv
  · exact c3_intensity_zero.2.1 "check this now" (fun _ => 1 / 2) 0 hv
      (Or.inl (by norm_num))
  · exact c3_intensity_zero.2.2.1 (fun t => [t]) (fun t => [t])
      (fun l => l.map fun _ => "NN") "fix the code" false (fun _ => 1 / 2) 0 hv
  · exact c3_intensity_zero.2.2.2 (fun t => [t]) "short text." (fun _ => 1 / 2)
      0 hv

/-- A sentence without a word-boundary occurrence of `the` passes through
the `count=1` word-boundary substitution unchanged. -/
theorem replTheAux_of_no_match (repl : String) :
    ∀ (cs : List Char) (prevW : Bool), hasWordTheAux prevW cs = false →
      replTheAux repl prevW cs = cs := by
  intro cs
  induction cs with
  | nil => intro prevW _; rfl
  | cons c rest ih =>
    intro prevW h
    rw [hasWordTheAux] at h
    have h1 : (!prevW && theAt (c :: rest)) = false := by
      cases hb : (!prevW && theAt (c :: rest)) <;> simp [hb] at h ⊢
    have h2 : hasWordTheAux (isWordChar c) rest = false := by
      cases hb : hasWordTheAux (isWordChar c) rest <;> simp [hb] at h ⊢
    rw [replTheAux, if_neg (by simp [h1]), ih (isWordChar c) h2]

/-- C6 fails as stated: the branch test of the noun-insertion sub-transform
is the substring test `"the" in sentence.lower()`, not a word test.  On the
more-than-3-word sentence `my thesis needs much work`, which contains no
word `the` but contains the substring inside `thesis`, a firing
sub-transform whose `p = 0.7` flip succeeds takes the word-boundary
`re.sub` branch, which replaces nothing: the interior-insertion branch does
not run and the sentence is returned unchanged. -/
theorem c6_counterexample :
    nounInsertion "my thesis needs much work" 1 (fun _ => 0) 0 =
      ("my thesis needs much work", 3) ∧
    hasWordThe "my thesis needs much work" = false ∧
    3 < (pySplit "my thesis needs much work").length ∧
    (nounInsertion "my thesis needs much work" 1 (fun _ => 0) 0).1 ≠
      interiorInsert "my thesis needs much work" (pick technical_nouns 0) 0 := by
  have hpick : pick technical_nouns 0 = "abstract syntax tree" := by
    norm_num [pick]
    rfl
  have hct : containsThe "my thesis needs much work" = true := by decide
  have hmain : nounInsertion "my thesis needs much work" 1 (fun _ => 0) 0 =
      ("my thesis needs much work", 3) := by
    simp only [nounInsertion, hct, hpick]
    norm_num
    decide
  have hins : interiorInsert "my thesis needs much work"
      (pick technical_nouns 0) 0 =
      "my within the context of abstract syntax tree thesis needs much work" := by
    rw [hpick]
    simp only [interiorInsert]
    norm_num
    decide
  refine ⟨hmain, by decide, by decide, ?_⟩
  rw [hmain, hins]
  decide

/-- C6, amended: the branch taken is decided by substring containment of
`the` in the lower-cased sentence.  When the substring is present and the
`p = 0.7` flip succeeds, the word-boundary `re.sub` branch runs (a no-op
whenever the sentence has no standalone word `the`); otherwise — substring
absent, or present with the flip failed — a sentence of more than 3 words
gets the interior insertion.  In particular a firing sub-transform on a
more-than-3-word sentence containing `thesis` but no word `the` takes the
no-op replacement branch when the flip succeeds, not interior insertion. -/
theorem c6_noun_insertion_branches :
    (∀ (sent : String) (intensity : ℚ) (s : RStream) (k : ℕ),
        s k < 3 / 10 * intensity → containsThe sent = true →
        s (k + 2) < 7 / 10 →
        nounInsertion sent intensity s k =
          (replaceFirstWordThe sent (pick technical_nouns (s (k + 1))), k + 3)) ∧
    (∀ (sent : String) (intensity : ℚ) (s : RStream) (k : ℕ),
        s k < 3 / 10 * intensity → containsThe sent = false →
        3 < (pySplit sent).length →
        nounInsertion sent intensity s k =
          (interiorInsert sent (pick technical_nouns (s (k + 1))) (s (k + 2)),
           k + 3)) ∧
    (∀ (sent : String) (intensity : ℚ) (s : RStream) (k : ℕ),
        s k < 3 / 10 * intensity → containsThe sent = true →
        ¬ s (k + 2) < 7 / 10 → 3 < (pySplit sent).length →
        nounInsertion sent intensity s k =
          (interiorInsert sent (pick technical_nouns (s (k + 1))) (s (k + 3)),
           k + 4)) ∧
    (∀ (sent noun : String), hasWordThe sent = false →
        replaceFirstWordThe sent noun = sent) := by
  refine ⟨?_, ?_, ?_, ?_⟩
  · intro sent intensity s k h1 h2 h3
    simp only [nounInsertion, if_pos h1, h2, if_pos h3, if_true]
  · intro sent intensity s k h1 h2 h3
    simp only [nounInsertion, if_pos h1, h2, if_pos h3, Bool.false_eq_true,
      if_false]
  · intro sent intensity s k h1 h2 h3 h4
    simp only [nounInsertion, if_pos h1, h2, if_neg h3, if_pos h4, if_true]
  · intro sent noun h
    have h2 := replTheAux_of_no_match ("the " ++ noun) sent.data false h
    show String.mk (replTheAux ("the " ++ noun) false sent.data) = sent
    rw [h2]

/-- Witness for the amended C6: the `thesis` sentence under a succeeding
and under a failing `p = 0.7` flip, plus a genuine word-`the` sentence. -/
theorem c6_witness :
    nounInsertion "my thesis needs much work" 1 (fun _ => 0) 0 =
      (replaceFirstWordThe "my thesis needs much work"
        (pick technical_nouns 0), 3) ∧
    replaceFirstWordThe "my thesis needs much work" (pick technical_nouns 0) =
      "my thesis needs much work" ∧
    nounInsertion "my thesis needs much work" 1
      (fun n => if n = 2 then 7 / 10 else 0) 0 =
      (interiorInsert "my thesis needs much work" (pick technical_nouns 0) 0,
       4) ∧
    nounInsertion "fix all bugs now" 1 (fun _ => 0) 0 =
      (interiorInsert "fix all bugs now" (pick technical_nouns 0) 0, 3) := by
  refine ⟨?_, ?_, ?_, ?_⟩
  · exact c6_noun_insertion_branches.1 "my thesis needs much work" 1
      (fun _ => 0) 0 (by norm_num) (by decide) (by norm_num)
  · exact c6_noun_insertion_branches.2.2.2 "my thesis needs much work"
      (pick technical_nouns 0) (by decide)
  · exact c6_noun_insertion_branches.2.2.1 "my thesis needs much work" 1
      (fun n => if n = 2 then 7 / 10 else 0) 0 (by norm_num) (by decide)
      (by norm_num) (by decide)
  · exact c6_noun_insertion_branches.2.1 "fix all bugs now" 1 (fun _ => 0) 0
      (by norm_num) (by decide) (by decide)

/-- In-place overwrite: when the key is present, the overwritten list maps
it to the new value. -/
theorem lookup_map_overwrite (key v : PyAtom) :
    ∀ base : List (PyAtom × PyAtom), (List.lookup key base).isSome →
      List.lookup key (overwriteKey key v base) = some v := by
  intro base
  induction base with
  | nil => intro h; simp [List.lookup] at h
  | cons p rest ih =>
    intro h
    rcases p with ⟨pk, pv⟩
    by_cases hk : pk = key
    · subst hk
      simp [overwriteKey, List.lookup]
    · have hkey : key ≠ pk := fun he => hk he.symm
      have hbeq : (key == pk) = false := beq_eq_false_iff_ne.mpr hkey
      have hbeq2 : (pk == key) = false := beq_eq_false_iff_ne.mpr hk
      simp only [List.lookup, hbeq] at h
      simp only [overwriteKey, hbeq2, Bool.false_eq_true, if_false,
        List.lookup, hbeq]
      exact ih h

/-- Appending a fresh key: the appended list maps it to the new value. -/
theorem lookup_append_new (key v : PyAtom) :
    ∀ base : List (PyAtom × PyAtom), List.lookup key base = none →
      List.lookup key (base ++ [(key, v)]) = some v := by
  intro base
  induction base with
  | nil => intro _; simp [List.lookup]
  | cons p rest ih =>
    intro h
    cases hbeq : key == p.1 with
    | true =>
      simp only [List.lookup, hbeq] at h
      exact Option.noConfusion h
    | false =>
      simp only [List.lookup, hbeq] at h
      simp only [List.cons_append, List.lookup, hbeq]
      exact ih h

/-- Override assignments win on key collision: after `base[key] = v` the
key maps to `v`. -/
theorem assocSet_lookup (base : List (PyAtom × PyAtom)) (key v : PyAtom) :
    List.lookup key (assocSet base key v) = some v := by
  unfold assocSet
  by_cases h : (List.lookup key base).isSome
  · rw [if_pos h]
    exact lookup_map_overwrite key v base h
  · rw [if_neg h]
    exact lookup_append_new key v base (Option.not_isSome_iff_eq_none.mp h)

/-- C7 fails as stated: `__init__` only checks `isinstance(..., dict)` and
truthiness, so a non-empty dict that is not a mapping of strings to strings
is merged, not ignored: with the override `{1: 2}` the resulting table is
not the default table. -/
theorem c7_counterexample :
    PyVal.isStrStrMap (PyVal.vdict [(PyAtom.aint 1, PyAtom.aint 2)]) = false ∧
    initTermMapping (PyVal.vdict [(PyAtom.aint 1, PyAtom.aint 2)]) ≠
      defaultTableP := by
  constructor
  · decide
  · intro h
    have := congrArg List.length h
    rw [show initTermMapping (PyVal.vdict [(PyAtom.aint 1, PyAtom.aint 2)]) =
      defaultTableP ++ [(PyAtom.aint 1, PyAtom.aint 2)] from by decide] at this
    simp at this

/-- C7, amended: engine construction never fails (it is a total function of
the override value): an override that is not a non-empty dict is silently
ignored and the default table retained unchanged; any non-empty dict —
regardless of key and value types — is merged into the defaults by
`dict.update`, each override assignment winning on key collision. -/
theorem c7_construction :
    (∀ custom : PyVal, (custom.truthy && custom.isDict) = false →
        initTermMapping custom = defaultTableP) ∧
    (∀ l : List (PyAtom × PyAtom), l ≠ [] →
        initTermMapping (PyVal.vdict l) = dictUpdate defaultTableP l) ∧
    (∀ (base : List (PyAtom × PyAtom)) (key v : PyAtom),
        List.lookup key (assocSet base key v) = some v) := by
  refine ⟨?_, ?_, assocSet_lookup⟩
  · intro custom h
    simp only [initTermMapping, h, Bool.false_eq_true, if_false]
  · intro l hl
    have ht : (PyVal.vdict l).truthy = true := by
      simp [PyVal.truthy, hl]
    simp only [initTermMapping, ht, PyVal.isDict, Bool.and_self, if_true]

/-- Witness for the amended C7: a non-dict override is ignored; a
string-to-string dict is merged with the override winning on the existing
key `look`. -/
theorem c7_witness :
    initTermMapping (PyVal.atom (PyAtom.aint 5)) = defaultTableP ∧
    initTermMapping
        (PyVal.vdict [(PyAtom.astr "look", PyAtom.astr "scan")]) =
      dictUpdate defaultTableP [(PyAtom.astr "look", PyAtom.astr "scan")] ∧
    List.lookup (PyAtom.astr "look")
        (assocSet defaultTableP (PyAtom.astr "look") (PyAtom.astr "scan")) =
      some (PyAtom.astr "scan") := by
  refine ⟨?_, ?_, ?_⟩
  · exact c7_construction.1 (PyVal.atom (PyAtom.aint 5)) (by decide)
  · exact c7_construction.2.1 [(PyAtom.astr "look", PyAtom.astr "scan")]
      (by simp)
  · exact c7_construction.2.2 defaultTableP (PyAtom.astr "look")
      (PyAtom.astr "scan")

/-- C8: `_formalize_ending` is the identity whenever the text is shorter
than 100 characters (no draw is even consumed), and returns the text
unchanged whenever sentence splitting yields fewer than 2 sentences, for
every intensity and every stream. -/
theorem c8_ending_gates (sentTok : String → List String) (text : String)
    (intensity : ℚ) (s : RStream) (k : ℕ) :
    (text.length < 100 → formalize_ending sentTok text intensity s k = (text, k)) ∧
    ((sentTok text).length < 2 →
      (formalize_ending sentTok text intensity s k).1 = text) := by
  constructor
  · intro h
    simp only [formalize_ending, if_pos h]
  · intro h
    by_cases hlen : text.length < 100
    · simp only [formalize_ending, if_pos hlen]
    · by_cases hg : s k > intensity
      · simp only [formalize_ending, if_neg hlen, if_pos hg]
      · simp only [formalize_ending, if_neg hlen, if_neg hg, if_pos h]

/-- Witness for C8: a 99-character input is returned unchanged, with no
draw consumed, even at intensity 1. -/
theorem c8_witness :
    ("x123456789x123456789x123456789x123456789x123456789x123456789x123456789x123456789x123456789x12345678" : String).length = 99 ∧
    formalize_ending (fun t => [t])
      "x123456789x123456789x123456789x123456789x123456789x123456789x123456789x123456789x123456789x12345678"
      1 (fun _ => 0) 0 =
      ("x123456789x123456789x123456789x123456789x123456789x123456789x123456789x123456789x123456789x12345678",
       0) := by
  constructor
  · decide
  · exact (c8_ending_gates (fun t => [t])
      "x123456789x123456789x123456789x123456789x123456789x123456789x123456789x123456789x123456789x12345678"
      1 (fun _ => 0) 0).1 (by decide)

theorem joinSp_cons_ne (a : String) (xs : List String) (h : xs ≠ []) :
    joinSp (a :: xs) = a ++ " " ++ joinSp xs := by
  cases xs with
  | nil => exact absurd rfl h
  | cons b ys => rfl

/-- A space-join ending in `e` is some string followed by `e`. -/
theorem joinSp_append_single (l : List String) (e : String) :
    ∃ a, joinSp (l ++ [e]) = a ++ e := by
  induction l with
  | nil => exact ⟨"", rfl⟩
  | cons x l ih =>
    obtain ⟨a, ha⟩ := ih
    refine ⟨x ++ " " ++ a, ?_⟩
    rw [List.cons_append, joinSp_cons_ne x (l ++ [e]) (by simp), ha]
    simp [String.append_assoc]

/-- Appending a nonempty string yields a nonempty string. -/
theorem append_ne_empty_of_right (a e : String) (he : e ≠ "") :
    a ++ e ≠ "" := by
  intro h
  have hd : (a ++ e).data = [] := by rw [h]
  rw [String.data_append] at hd
  exact he (String.ext (List.append_eq_nil.mp hd).2)

/-- A nonempty string determines the last character of anything it is
appended to. -/
theorem endsTerminal_append (a e : String) (he : e ≠ "") :
    endsTerminal (a ++ e) = endsTerminal e := by
  have hd : e.data ≠ [] := by
    intro h
    exact he (String.ext h)
  unfold endsTerminal
  rw [show (a ++ e).data = a.data ++ e.data from String.data_append a e,
    List.getLast?_append]
  cases hl : e.data.getLast? with
  | none => exact absurd (List.getLast?_eq_none_iff.mp hl) hd
  | some c => rfl

/-- Every one of the four formal endings is nonempty and ends with a
period. -/
theorem pick_formal_endings (q : ℚ) (h0 : 0 ≤ q) (h1 : q < 1) :
    endsTerminal (pick formal_endings q) = true ∧
    pick formal_endings q ≠ "" := by
  have key : ∀ i : ℕ, i < 4 →
      endsTerminal (formal_endings.getD i "") = true ∧
      formal_endings.getD i "" ≠ "" := by
    intro i hi
    interval_cases i <;> exact ⟨by decide, by decide⟩
  have hlen : formal_endings.length = 4 := rfl
  have hq4 : (0 : ℚ) ≤ q * (4 : ℕ) := by positivity
  have hlt : q * ((4 : ℕ) : ℚ) < 4 := by push_cast; nlinarith
  have hfl : ⌊q * ((4 : ℕ) : ℚ)⌋ < 4 := Int.floor_lt.mpr (by exact_mod_cast hlt)
  have hfl0 : (0 : ℤ) ≤ ⌊q * ((4 : ℕ) : ℚ)⌋ := Int.floor_nonneg.mpr hq4
  unfold pick
  rw [hlen]
  exact key (Int.toNat ⌊q * ((4 : ℕ) : ℚ)⌋) (by omega)

/-- First sentence of the C5 example text (100 characters). -/
def c5s1 : String :=
  "This opening sentence is written to be long enough that the full text passes the length gate easily."

/-- Second sentence of the C5 example text, with no terminal punctuation. -/
def c5s2 : String := "then we check it"

/-- The C5 example text. -/
def c5text : String := c5s1 ++ " " ++ c5s2

/-- Sentence splitter for the C5 example. -/
def c5sentTok : String → List String := fun _ => [c5s1, c5s2]

/-- Stream for the C5 example: gate draw 0, second flip draw 1/2. -/
def c5stream : RStream := fun n => if n = 0 then 0 else 1 / 2

/-- C5 fails as stated: the write-back of the punctuation-fixed last
sentence happens only under the second coin flip, so when that flip fails
the function, having passed all its gates (117 characters, gate draw 0 at
intensity 1/2, 2 sentences — the returned counter 2 shows both draws were
consumed), returns the plain re-join whose last sentence still lacks
terminal punctuation. -/
theorem c5_counterexample :
    100 ≤ c5text.length ∧
    formalize_ending c5sentTok c5text (1 / 2) c5stream 0 = (c5text, 2) ∧
    endsTerminal c5text = false := by
  have hn100 : ¬ c5text.length < 100 := by decide
  have hng : ¬ c5stream 0 > (1 / 2 : ℚ) := by norm_num [c5stream]
  have hn2 : ¬ (c5sentTok c5text).length < 2 := by norm_num [c5sentTok]
  have hnf : ¬ c5stream (0 + 1) < (1 / 2 : ℚ) := by norm_num [c5stream]
  refine ⟨by decide, ?_, by decide⟩
  simp only [formalize_ending, if_neg hn100, if_neg hng, if_neg hn2,
    if_neg hnf, c5sentTok]
  rfl

/-- C5, amended: whenever `_formalize_ending` proceeds past its gates
(length at least 100, gate draw at most intensity, at least 2 sentences)
AND the second coin flip succeeds, the returned text's last sentence ends
with terminal punctuation — the `.` fix of a punctuation-less last
sentence together with the appended formal ending (itself period-final)
reach the output only in that case; when the second flip fails the
original sentences are re-joined and no `.` is applied. -/
theorem c5_ending_terminal (sentTok : String → List String) (text : String)
    (intensity : ℚ) (s : RStream) (k : ℕ) (hs : validStream s)
    (h100 : 100 ≤ text.length) (hg : s k ≤ intensity)
    (h2 : 2 ≤ (sentTok text).length) (hflip : s (k + 1) < intensity) :
    endsTerminal (formalize_ending sentTok text intensity s k).1 = true := by
  have hn100 : ¬ text.length < 100 := by omega
  have hng : ¬ s k > intensity := not_lt.mpr hg
  have hn2 : ¬ (sentTok text).length < 2 := by omega
  have hpick := pick_formal_endings (s (k + 2)) (hs (k + 2)).1 (hs (k + 2)).2
  simp only [formalize_ending, if_neg hn100, if_neg hng, if_neg hn2,
    if_pos hflip]
  obtain ⟨a, ha⟩ := joinSp_append_single (sentTok text).dropLast
    ((if endsTerminal (rstrip ((sentTok text).getLastD "")) then
        (sentTok text).getLastD ""
      else (sentTok text).getLastD "" ++ ".") ++
      pick formal_endings (s (k + 2)))
  rw [ha, endsTerminal_append _ _ (append_ne_empty_of_right _ _ hpick.2),
    endsTerminal_append _ _ hpick.2]
  exact hpick.1

/-- Witness for the amended C5 on the example text with a stream whose
second flip succeeds. -/
theorem c5_witness :
    endsTerminal (formalize_ending c5sentTok c5text (1 / 2)
      (fun _ => 1 / 4) 0).1 = true := by
  have hv : validStream fun _ => (1 : ℚ) / 4 := fun _ => ⟨by norm_num, by norm_num⟩
  exact c5_ending_terminal c5sentTok c5text (1 / 2) (fun _ => 1 / 4) 0 hv
    (by decide) (by norm_num) (by norm_num [c5sentTok]) (by norm_num)

/-- Whitespace characters are not word characters, so an all-whitespace
character list contains no regex word match. -/
theorem countWordsAux_ws :
    ∀ (cs : List Char) (b : Bool), (∀ c ∈ cs, c.isWhitespace = true) →
      countWordsAux b cs = 0 := by
  intro cs
  induction cs with
  | nil => intro b _; rfl
  | cons c rest ih =>
    intro b h
    have hc : c.isWhitespace = true := h c (by simp)
    have hw : isWordChar c = false := by
      simp only [Char.isWhitespace, Bool.or_eq_true, decide_eq_true_eq] at hc
      rcases hc with ((h1 | h1) | h1) | h1 <;> subst h1 <;> decide
    simp only [countWordsAux, hw, Bool.false_eq_true, if_false]
    exact ih false fun x hx => h x (by simp [hx])

/-- C10: a non-empty all-whitespace input passes validation (it is not the
empty string), so the sentinel is not returned; sentence splitting yields
no sentences, the result is the empty string, and the statistics are 0
words and minus the input length in characters. -/
theorem c10_whitespace_input (tbl : List (String × String))
    (sentTok tok : String → List String) (tag : List String → List String)
    (text : String) (intensity : ℚ) (advanced : Bool) (s : RStream) (k : ℕ)
    (hne : text ≠ "") (hws : ∀ c ∈ text.data, c.isWhitespace = true)
    (hsplit : sentTok text = []) :
    transform tbl sentTok tok tag text intensity advanced s k =
      (("", ⟨0, -(text.length : ℤ)⟩), k) ∧
    (transform tbl sentTok tok tag text intensity advanced s k).1.1 ≠
      "Invalid input text." := by
  have hcw : countWords text = 0 := countWordsAux_ws text.data false
    (by simpa using hws)
  have hmain : transform tbl sentTok tok tag text intensity advanced s k =
      (("", ⟨0, -(text.length : ℤ)⟩), k) := by
    have hlen : ("" : String).length < 100 := by decide
    simp only [transform, if_neg hne, hsplit, transformSentences, joinSp,
      formalize_ending, if_pos hlen, hcw]
    norm_num
    rfl
  exact ⟨hmain, by rw [hmain]; simp⟩

/-- Witness for C10 at the one-space input. -/
theorem c10_witness :
    transform term_mapping (fun _ => []) (fun t => [t]) (fun l => l) " "
      (7 / 10) false (fun _ => 0) 0 = (("", ⟨0, -1⟩), 0) ∧
    (transform term_mapping (fun _ => []) (fun t => [t]) (fun l => l) " "
      (7 / 10) false (fun _ => 0) 0).1.1 ≠ "Invalid input text." := by
  have h := c10_whitespace_input term_mapping (fun _ => []) (fun t => [t])
    (fun l => l) " " (7 / 10) false (fun _ => 0) 0 (by decide) (by decide) rfl
  exact ⟨by rw [h.1]; rfl, h.2⟩

end PromptGen
